import Mathlib

/-!
# Verification of the developers-conferences-agenda event engine

Shallow embedding of the event normalizer and filter engine of
`src/main.go`.  Go's `time.Time` values (always compared as absolute
instants here) are modelled as nanoseconds since the Unix epoch, with the
zero `time.Time` (January 1, year 1 UTC) at its actual offset of
-62135596800 seconds, so that `IsZero`, `Before` and `After` behave as in
Go.  Go's `int64` arithmetic in `millisToTime` (`millis *
int64(time.Millisecond)`) wraps on overflow; this is modelled explicitly
with `wrap64`.
-/

namespace DevEvents

/-- Two's-complement wrap-around of an integer into the `int64` range,
as performed by Go on `int64` multiplication overflow. -/
def wrap64 (n : Int) : Int :=
  (n + 2 ^ 63) % 2 ^ 64 - 2 ^ 63

/-- Go `time.Time`, as an absolute instant: nanoseconds since the Unix
epoch (the program only ever compares instants, so the location and
monotonic-clock parts of `time.Time` are irrelevant). -/
structure GoTime where
  ns : Int
deriving DecidableEq

/-- The zero `time.Time` (January 1, year 1, 00:00:00 UTC), which Go's
`IsZero` detects; it lies 62135596800 seconds before the Unix epoch. -/
def GoTime.zero : GoTime := ⟨-62135596800 * 1000000000⟩

/-- Model of `t.IsZero()` of Go: `t` is the zero instant. -/
def GoTime.isZero (t : GoTime) : Bool := t.ns == GoTime.zero.ns

/-- Model of `t.After(u)` of Go: `t` is strictly later than `u`. -/
def GoTime.after (t u : GoTime) : Bool := u.ns < t.ns

/-- Model of `t.Before(u)` of Go: `t` is strictly earlier than `u`. -/
def GoTime.before (t u : GoTime) : Bool := t.ns < u.ns

/-- Model of `millisToTime` of `src/main.go`: `0` maps to the zero `time.Time`;
otherwise `time.Unix(0, millis*int64(time.Millisecond)).UTC()`, whose
instant is `millis * 10^6` nanoseconds since the epoch, computed with
wrapping `int64` multiplication. -/
def millisToTime (millis : Int) : GoTime :=
  if millis = 0 then GoTime.zero
  else ⟨wrap64 (millis * 1000000)⟩

/-- Model of `CFPInfo` of `src/main.go` (`until` is a reserved word in Lean, hence
`untilText` for the free-text field). -/
structure CFPInfo where
  link : String
  untilText : String
  untilDate : Int
deriving DecidableEq

/-- Model of `Event` of `src/main.go`; the three trailing fields are the computed
ones, zero-valued until `processEvent` fills them in. -/
structure Event where
  name : String := ""
  dateTimestamps : List Int := []
  url : String := ""
  location : String := ""
  city : String := ""
  country : String := ""
  misc : String := ""
  cfp : CFPInfo := ⟨"", "", 0⟩
  closedCaptions : Bool := false
  scholarship : Bool := false
  status : String := ""
  startDate : GoTime := GoTime.zero
  endDate : GoTime := GoTime.zero
  cfpEndDate : GoTime := GoTime.zero
deriving DecidableEq

/-- The per-event body of the computed-field loop of
`fetchAndParseEvents` (`src/main.go` lines 111-129): derive `startDate`
and `endDate` from the `date` array, and `cfpEndDate` from
`cfp.untilDate` when positive. -/
def processEvent (e : Event) : Event :=
  let e1 :=
    if 0 < e.dateTimestamps.length then
      let s := millisToTime (e.dateTimestamps.headD 0)
      let en :=
        if 1 < e.dateTimestamps.length then
          millisToTime (e.dateTimestamps.getLastD 0)
        else s
      { e with startDate := s, endDate := en }
    else e
  if 0 < e1.cfp.untilDate then
    { e1 with cfpEndDate := millisToTime e1.cfp.untilDate }
  else e1

/-- The computed-field loop applied to the whole decoded list. -/
def processEvents (events : List Event) : List Event :=
  events.map processEvent

/-- Model of `strings.ToLower`, character by character. -/
def strToLower (s : String) : String := s.map Char.toLower

/-- Test that `sub` occurs as a contiguous substring of `l`
(`strings.Contains` on the character lists). -/
def isSubstr (sub : List Char) : List Char → Bool
  | [] => sub.isEmpty
  | c :: rest => sub.isPrefixOf (c :: rest) || isSubstr sub rest

/-- Model of `contains` of `src/main.go`: case-insensitive substring test. -/
def contains (s substr : String) : Bool :=
  isSubstr (strToLower substr).toList (strToLower s).toList

/-- Gregorian leap year, as `time` computes it. -/
def isLeapYear (y : Int) : Bool :=
  y % 4 == 0 && (y % 100 != 0 || y % 400 == 0)

/-- Number of days of month `m` of year `y` (the bound Go's
`time.Parse` checks the day-of-month against). -/
def daysInMonth (y m : Int) : Int :=
  if m = 2 then (if isLeapYear y then 29 else 28)
  else if m = 4 ∨ m = 6 ∨ m = 9 ∨ m = 11 then 30
  else 31

/-- Days from the Unix epoch to civil date `y-m-d` (proleptic Gregorian
calendar; the standard era-based computation, matching `time.Date`). -/
def daysFromCivil (y m d : Int) : Int :=
  let y2 := if m ≤ 2 then y - 1 else y
  let era := (if 0 ≤ y2 then y2 else y2 - 399) / 400
  let yoe := y2 - era * 400
  let mp := (m + 9) % 12
  let doy := (153 * mp + 2) / 5 + d - 1
  let doe := yoe * 365 + yoe / 4 - yoe / 100 + doy
  era * 146097 + doe - 719468

/-- Numeric value of a list of decimal digit characters. -/
def digitsToInt (l : List Char) : Int :=
  l.foldl (fun a c => a * 10 + ((c.toNat : Int) - 48)) 0

/-- Model of `time.Parse("2006-01-02", s)`: accepts exactly ten characters
`YYYY-MM-DD` (four digit year, two digit month `01`-`12`, two digit day
valid for that month and year), yielding midnight UTC of that civil
date; anything else is a parse error (`none`). -/
def parseDate (s : String) : Option GoTime :=
  match s.toList with
  | [y1, y2, y3, y4, h1, mo1, mo2, h2, d1, d2] =>
    if (h1 == '-') && (h2 == '-')
        && ([y1, y2, y3, y4, mo1, mo2, d1, d2].all Char.isDigit) then
      let y := digitsToInt [y1, y2, y3, y4]
      let mo := digitsToInt [mo1, mo2]
      let d := digitsToInt [d1, d2]
      if 1 ≤ mo ∧ mo ≤ 12 ∧ 1 ≤ d ∧ d ≤ daysInMonth y mo then
        some ⟨daysFromCivil y mo d * 86400 * 1000000000⟩
      else none
    else none
  | _ => none

/-- Model of `SearchEventsArgs` of `src/main.go`. -/
structure SearchEventsArgs where
  query : String := ""
  location : String := ""
  fromDate : String := ""
  toDate : String := ""
  hasOpenCFP : Bool := false
  cfpFromDate : String := ""
  cfpToDate : String := ""
  limit : Int := 0
deriving DecidableEq

/-- The error a date-valued option that fails `time.Parse` produces
(the handler returns the message `Invalid <field> format: ...` and no
event list). -/
inductive DateError where
  | invalidDate (field : String)
deriving DecidableEq

/-- Parsing of one date-valued option in the `search_events` handler:
an empty string leaves the zero `time.Time` (filter inactive), a
non-empty string must parse or the handler aborts. -/
def parseDateField (s : String) (field : String) : Except DateError GoTime :=
  if s = "" then .ok GoTime.zero
  else
    match parseDate s with
    | some t => .ok t
    | none => .error (.invalidDate field)

/-- The per-event keep condition of the `search_events` loop
(`src/main.go` lines 177-201): the conjunction of the negations of the
seven `continue` conditions, in source order. -/
def searchKeep (args : SearchEventsArgs) (now : GoTime)
    (fromD toD cfpFromD cfpToD : GoTime) (e : Event) : Bool :=
  !(args.query != "" &&
      !contains (e.name ++ e.location ++ e.city ++ e.country ++ e.misc) args.query) &&
  !(args.location != "" && !contains e.location args.location) &&
  !(!fromD.isZero && e.startDate.before fromD) &&
  !(!toD.isZero && e.startDate.after toD) &&
  !(args.hasOpenCFP && (!(e.cfpEndDate.after now) || e.cfp.link == "")) &&
  !(!cfpFromD.isZero && e.cfpEndDate.before cfpFromD) &&
  !(!cfpToD.isZero && e.cfpEndDate.after cfpToD)

/-- The accumulation loop shared by `search_events`, `open_cfps` and
`upcoming_events`: append each event passing `p`; once `limit > 0`
matches have been accumulated (`n` counts matches already taken),
break. -/
def filterLimit (p : Event → Bool) (limit : Int) : List Event → Int → List Event
  | [], _ => []
  | e :: rest, n =>
    if p e then
      if 0 < limit ∧ limit ≤ n + 1 then [e]
      else e :: filterLimit p limit rest (n + 1)
    else filterLimit p limit rest n

/-- The `search_events` handler (`src/main.go` lines 140-218), after the
fetch: parse the four date options in source order, aborting with the
corresponding error on the first failure, then run the filter loop. -/
def searchEvents (args : SearchEventsArgs) (now : GoTime)
    (events : List Event) : Except DateError (List Event) :=
  match parseDateField args.fromDate "fromDate" with
  | .error er => .error er
  | .ok fromD =>
    match parseDateField args.toDate "toDate" with
    | .error er => .error er
    | .ok toD =>
      match parseDateField args.cfpFromDate "cfpFromDate" with
      | .error er => .error er
      | .ok cfpFromD =>
        match parseDateField args.cfpToDate "cfpToDate" with
        | .error er => .error er
        | .ok cfpToD =>
          .ok (filterLimit (searchKeep args now fromD toD cfpFromD cfpToD)
                args.limit events 0)

/-- The open-CFP condition shared by the `open_cfps` tool
(`src/main.go` line 235) and the `events://open-cfps` resource
(line 284): CFP deadline strictly after `now` and a non-empty CFP
link. -/
def openCFP (now : GoTime) (e : Event) : Bool :=
  e.cfpEndDate.after now && e.cfp.link != ""

/-- The `open_cfps` tool body after the fetch. -/
def openCfpsFilter (limit : Int) (now : GoTime) (events : List Event) : List Event :=
  filterLimit (openCFP now) limit events 0

/-- The `events://open-cfps` resource body after the fetch (no limit). -/
def openCfpsResource (now : GoTime) (events : List Event) : List Event :=
  events.filter (openCFP now)

/-- Model of `now.AddDate(0, 0, n)`: `n` calendar days later.  In UTC (no
daylight-saving shifts) this is exactly `n * 86400` seconds. -/
def addDays (t : GoTime) (n : Int) : GoTime :=
  ⟨t.ns + n * 86400 * 1000000000⟩

/-- The `cfp_deadlines_soon` handler (`src/main.go` lines 332-359) after
the fetch: a non-positive day count defaults to 30; keep events whose
CFP deadline is strictly between `now` and `now + days`, with a
non-empty CFP link. -/
def cfpDeadlinesSoon (days : Int) (now : GoTime) (events : List Event) : List Event :=
  let d := if days ≤ 0 then 30 else days
  let deadline := addDays now d
  events.filter (fun e =>
    e.cfpEndDate.after now && e.cfpEndDate.before deadline && e.cfp.link != "")

/-! ## JSON decoding (`fetchAndParseEvents`, lines 100-108)

JSON documents are modelled at the value level (numbers as integers,
which is all the feed's fields use).  `encoding/json` semantics for
unmarshalling into the Go structs: a missing field or a JSON `null`
leaves the field at its zero value, an unknown field is ignored, a
type-mismatched field is a decode error; for duplicate keys the last
occurrence wins. -/

inductive Json where
  | null
  | bool (b : Bool)
  | num (n : Int)
  | str (s : String)
  | arr (items : List Json)
  | obj (fields : List (String × Json))

/-- Look up key `k`; the last occurrence wins, as in `encoding/json`. -/
def getField (fields : List (String × Json)) (k : String) : Option Json :=
  (fields.reverse.find? (fun p => p.1 == k)).map Prod.snd

/-- Unmarshal an optional field into a `string`. -/
def decStr : Option Json → Option String
  | none => some ""
  | some .null => some ""
  | some (.str s) => some s
  | some _ => none

/-- Unmarshal an optional field into an `int64`. -/
def decInt : Option Json → Option Int
  | none => some 0
  | some .null => some 0
  | some (.num n) => some n
  | some _ => none

/-- Unmarshal an optional field into a `bool`. -/
def decBool : Option Json → Option Bool
  | none => some false
  | some .null => some false
  | some (.bool b) => some b
  | some _ => none

/-- Unmarshal an optional field into an `[]int64`. -/
def decIntList : Option Json → Option (List Int)
  | none => some []
  | some .null => some []
  | some (.arr xs) =>
    xs.mapM (fun j =>
      match j with
      | .num n => some n
      | .null => some 0
      | _ => none)
  | some _ => none

/-- Unmarshal an optional field into a `CFPInfo`. -/
def decCFP : Option Json → Option CFPInfo
  | none => some ⟨"", "", 0⟩
  | some .null => some ⟨"", "", 0⟩
  | some (.obj fs) =>
    match decStr (getField fs "link"), decStr (getField fs "until"),
        decInt (getField fs "untilDate") with
    | some l, some u, some d => some ⟨l, u, d⟩
    | _, _, _ => none
  | some _ => none

/-- Unmarshal one JSON value into an `Event` (computed fields left at
their zero values; they are filled in by `processEvent` afterwards). -/
def decodeEvent : Json → Option Event
  | .null => some {}
  | .obj fs =>
    match decStr (getField fs "name"), decIntList (getField fs "date"),
        decStr (getField fs "hyperlink"), decStr (getField fs "location"),
        decStr (getField fs "city"), decStr (getField fs "country"),
        decStr (getField fs "misc"), decCFP (getField fs "cfp"),
        decBool (getField fs "closedCaptions"),
        decBool (getField fs "scholarship"), decStr (getField fs "status") with
    | some nm, some ts, some u, some lo, some ci, some co, some mi,
        some cf, some cc, some sc, some st =>
      some { name := nm, dateTimestamps := ts, url := u, location := lo,
             city := ci, country := co, misc := mi, cfp := cf,
             closedCaptions := cc, scholarship := sc, status := st }
    | _, _, _, _, _, _, _, _, _, _, _ => none
  | _ => none

/-- Model of `json.Unmarshal(body, &events)` with `events : []Event`: the bare
array shape. -/
def decodeEvents : Json → Option (List Event)
  | .null => some []
  | .arr items => items.mapM decodeEvent
  | _ => none

/-- Model of `json.Unmarshal(body, &wrappedData)` with `wrappedData : EventData`:
the `{"events": [...]}` wrapper shape (a missing `events` field leaves
the nil slice). -/
def decodeEventData : Json → Option (List Event)
  | .null => some []
  | .obj fs =>
    match getField fs "events" with
    | none => some []
    | some j => decodeEvents j
  | _ => none

/-- Both JSON shapes rejected. -/
inductive ParseErr where
  | malformed
deriving DecidableEq

/-- The decode-with-fallback and derive step of `fetchAndParseEvents`
(`src/main.go` lines 100-131): try the bare array shape first, then the
wrapper shape, then fail; derive the computed fields of every event. -/
def parseEventsJson (j : Json) : Except ParseErr (List Event) :=
  match decodeEvents j with
  | some evs => .ok (processEvents evs)
  | none =>
    match decodeEventData j with
    | some evs => .ok (processEvents evs)
    | none => .error .malformed

/-! ## Helper lemmas -/

/-- The function `wrap64` is the identity on values already in the `int64` range. -/
theorem wrap64_eq_self (n : Int) (h1 : -(2 ^ 63) ≤ n) (h2 : n < 2 ^ 63) :
    wrap64 n = n := by
  unfold wrap64
  have hlb : (0 : Int) ≤ n + 2 ^ 63 := by linarith
  have hub : n + 2 ^ 63 < 2 ^ 64 := by norm_num at h2 ⊢; linarith
  rw [Int.emod_eq_of_lt hlb hub]
  ring

/-- The function `wrap64` lands in the `int64` range. -/
theorem wrap64_mem_range (n : Int) :
    -(2 ^ 63) ≤ wrap64 n ∧ wrap64 n < 2 ^ 63 := by
  unfold wrap64
  have hpos : (0 : Int) < 2 ^ 64 := by norm_num
  have h1 : (0 : Int) ≤ (n + 2 ^ 63) % 2 ^ 64 :=
    Int.emod_nonneg (n + 2 ^ 63) (by norm_num)
  have h2 : (n + 2 ^ 63) % 2 ^ 64 < 2 ^ 64 := Int.emod_lt_of_pos (n + 2 ^ 63) hpos
  constructor
  · linarith
  · norm_num at h2 ⊢; linarith

/-- A nonzero millisecond value never converts to the zero instant: the
zero instant's nanosecond offset lies outside the `int64` range. -/
theorem millisToTime_ne_zero (m : Int) (hm : m ≠ 0) :
    (millisToTime m).isZero = false := by
  unfold millisToTime
  rw [if_neg hm]
  have h := (wrap64_mem_range (m * 1000000)).1
  simp only [GoTime.isZero, GoTime.zero, beq_eq_false_iff_ne, ne_eq]
  intro hc
  rw [hc] at h
  norm_num at h

/-- Every event the filter loop emits satisfies the predicate. -/
theorem mem_filterLimit {p : Event → Bool} {limit : Int} :
    ∀ {l : List Event} {n : Int} {e : Event},
      e ∈ filterLimit p limit l n → p e = true := by
  intro l
  induction l with
  | nil => intro n e h; simp [filterLimit] at h
  | cons a rest ih =>
    intro n e h
    unfold filterLimit at h
    by_cases hp : p a
    · rw [if_pos hp] at h
      by_cases hl : 0 < limit ∧ limit ≤ n + 1
      · rw [if_pos hl] at h
        simp only [List.mem_singleton] at h
        rw [h]; exact hp
      · rw [if_neg hl] at h
        rcases List.mem_cons.mp h with h1 | h2
        · rw [h1]; exact hp
        · exact ih h2
    · rw [if_neg (by simpa using hp)] at h
      exact ih h

/-- The filter loop is a sub-sequence of its input (order preserved). -/
theorem filterLimit_sublist (p : Event → Bool) (limit : Int) :
    ∀ (l : List Event) (n : Int), List.Sublist (filterLimit p limit l n) l := by
  intro l
  induction l with
  | nil => intro n; simp [filterLimit]
  | cons a rest ih =>
    intro n
    unfold filterLimit
    by_cases hp : p a
    · rw [if_pos hp]
      by_cases hl : 0 < limit ∧ limit ≤ n + 1
      · rw [if_pos hl]
        exact (List.nil_sublist rest).cons₂ a
      · rw [if_neg hl]
        exact (ih (n + 1)).cons₂ a
    · rw [if_neg (by simpa using hp)]
      exact (ih n).cons a

/-- With an inactive limit (`limit ≤ 0`) the loop is a plain filter. -/
theorem filterLimit_eq_filter (p : Event → Bool) (limit : Int)
    (hlim : limit ≤ 0) :
    ∀ (l : List Event) (n : Int), filterLimit p limit l n = l.filter p := by
  intro l
  induction l with
  | nil => intro n; simp [filterLimit]
  | cons a rest ih =>
    intro n
    unfold filterLimit
    by_cases hp : p a
    · rw [if_pos hp, if_neg (by omega), List.filter_cons_of_pos hp, ih (n + 1)]
    · rw [if_neg (by simpa using hp), List.filter_cons_of_neg (by simpa using hp),
        ih n]

/-- With an active limit and `n` matches already taken, the loop emits
the next `limit - n` matches in input order. -/
theorem filterLimit_eq_take (p : Event → Bool) (limit : Int)
    (hlim : 0 < limit) :
    ∀ (l : List Event) (n : Int), n < limit →
      filterLimit p limit l n = (l.filter p).take (limit - n).toNat := by
  intro l
  induction l with
  | nil => intro n _; simp [filterLimit]
  | cons a rest ih =>
    intro n hn
    unfold filterLimit
    by_cases hp : p a
    · rw [if_pos hp, List.filter_cons_of_pos hp]
      by_cases hl : 0 < limit ∧ limit ≤ n + 1
      · rw [if_pos hl]
        have hEq : limit = n + 1 := le_antisymm hl.2 (by omega)
        have : (limit - n).toNat = 1 := by omega
        rw [this, List.take_succ_cons, List.take_zero]
      · rw [if_neg hl]
        have hn1 : n + 1 < limit := by omega
        rw [ih (n + 1) hn1]
        have : (limit - n).toNat = (limit - (n + 1)).toNat + 1 := by omega
        rw [this, List.take_succ_cons]
    · rw [if_neg (by simpa using hp), List.filter_cons_of_neg (by simpa using hp),
        ih n hn]

/-- Value of `processEvent` on the `startDate` field. -/
theorem processEvent_startDate (e : Event) :
    (processEvent e).startDate =
      if 0 < e.dateTimestamps.length then millisToTime (e.dateTimestamps.headD 0)
      else e.startDate := by
  unfold processEvent
  by_cases h : 0 < e.dateTimestamps.length <;> simp only [h, if_pos, if_neg,
    ite_true, ite_false] <;> split <;> simp

/-- Value of `processEvent` on the `endDate` field. -/
theorem processEvent_endDate (e : Event) :
    (processEvent e).endDate =
      if 0 < e.dateTimestamps.length then
        (if 1 < e.dateTimestamps.length then
          millisToTime (e.dateTimestamps.getLastD 0)
        else millisToTime (e.dateTimestamps.headD 0))
      else e.endDate := by
  unfold processEvent
  by_cases h : 0 < e.dateTimestamps.length <;>
    by_cases h2 : 1 < e.dateTimestamps.length <;>
    simp only [h, h2, if_pos, if_neg, ite_true, ite_false] <;> split <;> simp

/-- Value of `processEvent` on the `cfpEndDate` field. -/
theorem processEvent_cfpEndDate (e : Event) :
    (processEvent e).cfpEndDate =
      if 0 < e.cfp.untilDate then millisToTime e.cfp.untilDate
      else e.cfpEndDate := by
  unfold processEvent
  by_cases h : 0 < e.dateTimestamps.length <;>
    by_cases hc : 0 < e.cfp.untilDate <;>
    simp [h, hc]

/-! ## Claims -/

/-- C1, counterexample: the claim "for every decoded event with both
derived dates set, `endDate ≥ startDate`" fails on the event whose
`date` array is `[2000, 1000]`: the code takes the first entry as start
and the last as end without sorting, so the derived `endDate`
(1000 ms = 10^6 ns) is strictly before the derived `startDate`
(2000 ms = 2*10^6 ns), while both are set. -/
theorem C1_counterexample :
    (processEvent { dateTimestamps := [2000, 1000] }).endDate.ns
        < (processEvent { dateTimestamps := [2000, 1000] }).startDate.ns
    ∧ (processEvent { dateTimestamps := [2000, 1000] }).startDate.isZero = false
    ∧ (processEvent { dateTimestamps := [2000, 1000] }).endDate.isZero = false := by
  decide

/-- C1, amended: for every decoded event whose timestamps list is
non-empty, if the first timestamp is positive, at most the last one,
and the last one is small enough that the nanosecond conversion does
not overflow `int64` (`≤ 9223372036854` ms, about April 2262), then
both derived dates are set and `endDate ≥ startDate`. -/
theorem C1_amended_endDate_ge_startDate (e : Event) (t : Int) (rest : List Int)
    (hts : e.dateTimestamps = t :: rest)
    (hpos : 0 < t) (hord : t ≤ e.dateTimestamps.getLastD 0)
    (hrange : e.dateTimestamps.getLastD 0 ≤ 9223372036854) :
    (processEvent e).startDate.ns ≤ (processEvent e).endDate.ns
    ∧ (processEvent e).startDate.isZero = false
    ∧ (processEvent e).endDate.isZero = false := by
  have hlen : 0 < e.dateTimestamps.length := by rw [hts]; simp
  have hhead : e.dateTimestamps.headD 0 = t := by rw [hts]; rfl
  have hlast := hord
  have hlastpos : 0 < e.dateTimestamps.getLastD 0 := lt_of_lt_of_le hpos hord
  have hconv : ∀ m : Int, 0 < m → m ≤ 9223372036854 →
      (millisToTime m).ns = m * 1000000 := by
    intro m h1 h2
    unfold millisToTime
    rw [if_neg (by omega)]
    exact wrap64_eq_self _ (by nlinarith) (by nlinarith)
  have htle : t ≤ 9223372036854 := le_trans hord hrange
  rw [processEvent_startDate, processEvent_endDate, if_pos hlen, if_pos hlen, hhead]
  by_cases h2 : 1 < e.dateTimestamps.length
  · rw [if_pos h2]
    refine ⟨?_, millisToTime_ne_zero t (by omega),
      millisToTime_ne_zero _ (by omega)⟩
    rw [hconv t hpos htle, hconv _ hlastpos hrange]
    nlinarith
  · rw [if_neg h2]
    exact ⟨le_refl _, millisToTime_ne_zero t (by omega),
      millisToTime_ne_zero t (by omega)⟩

/-- C1, witness for the amended theorem at the event with timestamps
`[1000, 2000]`. -/
theorem C1_witness :
    (processEvent { dateTimestamps := [1000, 2000] }).startDate.ns
        ≤ (processEvent { dateTimestamps := [1000, 2000] }).endDate.ns
    ∧ (processEvent { dateTimestamps := [1000, 2000] }).startDate.isZero = false
    ∧ (processEvent { dateTimestamps := [1000, 2000] }).endDate.isZero = false :=
  C1_amended_endDate_ge_startDate { dateTimestamps := [1000, 2000] } 1000 [2000]
    rfl (by decide) (by decide) (by decide)

/-- C3: for every decoded event (computed fields still at their zero
values), the derivation sets `startDate = convert(timestamps[0])` and
`endDate = convert(timestamps[last])` when the list has more than one
element, sets `endDate = startDate` for a singleton list, and leaves
both unset for an empty list. -/
theorem C3_derived_dates (e : Event)
    (hs : e.startDate = GoTime.zero) (he : e.endDate = GoTime.zero) :
    (e.dateTimestamps = [] →
      (processEvent e).startDate = GoTime.zero
      ∧ (processEvent e).endDate = GoTime.zero)
    ∧ (∀ t rest, e.dateTimestamps = t :: rest →
        (processEvent e).startDate = millisToTime t
        ∧ (rest ≠ [] →
            (processEvent e).endDate = millisToTime (e.dateTimestamps.getLastD 0))
        ∧ (rest = [] → (processEvent e).endDate = (processEvent e).startDate)) := by
  constructor
  · intro hnil
    rw [processEvent_startDate, processEvent_endDate, hnil]
    simp [hs, he]
  · intro t rest hts
    have hlen : 0 < e.dateTimestamps.length := by rw [hts]; simp
    have hhead : e.dateTimestamps.headD 0 = t := by rw [hts]; rfl
    rw [processEvent_startDate, processEvent_endDate, if_pos hlen, if_pos hlen, hhead]
    refine ⟨rfl, ?_, ?_⟩
    · intro hne
      have h2 : 1 < e.dateTimestamps.length := by
        rw [hts]; cases rest with
        | nil => exact absurd rfl hne
        | cons b bs => simp
      rw [if_pos h2]
    · intro hnil
      have h2 : ¬ 1 < e.dateTimestamps.length := by rw [hts, hnil]; simp
      rw [if_neg h2]

/-- C3, witness at an event with timestamps `[1, 2, 3]`. -/
theorem C3_witness :
    (processEvent { dateTimestamps := [1, 2, 3] }).startDate = millisToTime 1
    ∧ ((processEvent { dateTimestamps := [1, 2, 3] }).endDate
        = millisToTime (([1, 2, 3] : List Int).getLastD 0)) :=
  have h := (C3_derived_dates { dateTimestamps := [1, 2, 3] } rfl rfl).2 1 [2, 3] rfl
  ⟨h.1, h.2.1 (by decide)⟩

/-- C9, counterexample: the conversion is not strictly increasing on
all positive `int64` millisecond inputs: `1 < 10^13`, but
`millisToTime 10^13` (an instant in the year 2286, whose nanosecond
value overflows `int64` and wraps negative) is strictly before
`millisToTime 1`. -/
theorem C9_counterexample :
    (1 : Int) < 10000000000000
    ∧ (millisToTime 10000000000000).ns < (millisToTime 1).ns := by
  decide

/-- C9, amended: the conversion is strictly increasing on positive
millisecond inputs up to `9223372036854` (the largest whose nanosecond
value fits `int64`, about April 2262); `millisToTime 0` is the unset
(zero) sentinel, and `millisToTime 1` is set, so the two are
distinguishable. -/
theorem C9_amended_monotone :
    (∀ m1 m2 : Int, 0 < m1 → m1 < m2 → m2 ≤ 9223372036854 →
      (millisToTime m1).ns < (millisToTime m2).ns)
    ∧ millisToTime 0 = GoTime.zero
    ∧ (millisToTime 1).isZero = false := by
  refine ⟨?_, rfl, by decide⟩
  intro m1 m2 h1 h12 h2
  have hconv : ∀ m : Int, 0 < m → m ≤ 9223372036854 →
      (millisToTime m).ns = m * 1000000 := by
    intro m hm1 hm2
    unfold millisToTime
    rw [if_neg (by omega)]
    exact wrap64_eq_self _ (by nlinarith) (by nlinarith)
  rw [hconv m1 h1 (by omega), hconv m2 (by omega) h2]
  nlinarith

/-- C9, witness for the amended theorem at `m1 = 1`, `m2 = 2`. -/
theorem C9_witness :
    (millisToTime 1).ns < (millisToTime 2).ns
    ∧ millisToTime 0 = GoTime.zero
    ∧ (millisToTime 1).isZero = false :=
  ⟨C9_amended_monotone.1 1 2 (by decide) (by decide) (by decide),
    C9_amended_monotone.2.1, C9_amended_monotone.2.2⟩

/-- C10, counterexample: it is not true that every strictly negative
millisecond value converts to an instant strictly before the Unix
epoch: for `m = -10^13` the `int64` multiplication `m * 10^6` wraps
positive, so `millisToTime (-10^13)` is strictly after the epoch. -/
theorem C10_counterexample :
    (-10000000000000 : Int) < 0
    ∧ 0 < (millisToTime (-10000000000000)).ns := by
  decide

/-- C10, amended: only the exact input 0 maps to the unset sentinel
(true for every nonzero `int64` input, since the zero instant's
nanosecond offset lies outside the `int64` range); every strictly
negative millisecond value down to `-9223372036854` (where the
nanosecond conversion still fits `int64`) converts to a set instant
strictly before the Unix epoch; consequently such a negative first
timestamp produces a set pre-epoch `startDate`, whereas a negative
`cfp.untilDate` leaves `cfpEndDate` untouched (hence unset) because the
derivation only converts when `untilDate > 0`. -/
theorem C10_amended_negative :
    (∀ m : Int, m ≠ 0 → (millisToTime m).isZero = false)
    ∧ (∀ m : Int, -9223372036854 ≤ m → m < 0 →
        (millisToTime m).ns < 0 ∧ (millisToTime m).isZero = false)
    ∧ (∀ e : Event, 0 < e.dateTimestamps.length →
        -9223372036854 ≤ e.dateTimestamps.headD 0 → e.dateTimestamps.headD 0 < 0 →
        (processEvent e).startDate.ns < 0
        ∧ (processEvent e).startDate.isZero = false)
    ∧ (∀ e : Event, e.cfp.untilDate < 0 →
        (processEvent e).cfpEndDate = e.cfpEndDate) := by
  have hneg : ∀ m : Int, -9223372036854 ≤ m → m < 0 →
      (millisToTime m).ns < 0 ∧ (millisToTime m).isZero = false := by
    intro m hm1 hm2
    refine ⟨?_, millisToTime_ne_zero m (by omega)⟩
    unfold millisToTime
    rw [if_neg (by omega)]
    rw [wrap64_eq_self _ (by nlinarith) (by nlinarith)]
    show m * 1000000 < 0
    omega
  refine ⟨fun m hm => millisToTime_ne_zero m hm, hneg, ?_, ?_⟩
  · intro e hlen h1 h2
    rw [processEvent_startDate, if_pos hlen]
    exact hneg _ h1 h2
  · intro e hcfp
    rw [processEvent_cfpEndDate, if_neg (by omega)]

/-- C10, witness for the amended theorem at `m = -1` and at an event
with first timestamp `-1` and `cfp.untilDate = -5`. -/
theorem C10_witness :
    (millisToTime (-1)).isZero = false
    ∧ ((millisToTime (-1)).ns < 0 ∧ (millisToTime (-1)).isZero = false)
    ∧ ((processEvent { dateTimestamps := [-1] }).startDate.ns < 0
        ∧ (processEvent { dateTimestamps := [-1] }).startDate.isZero = false)
    ∧ (processEvent { cfp := ⟨"", "", -5⟩ }).cfpEndDate
        = ({ cfp := ⟨"", "", -5⟩ } : Event).cfpEndDate :=
  ⟨C10_amended_negative.1 (-1) (by decide),
    C10_amended_negative.2.1 (-1) (by decide) (by decide),
    C10_amended_negative.2.2.1 { dateTimestamps := [-1] } (by decide) (by decide)
      (by decide),
    C10_amended_negative.2.2.2 { cfp := ⟨"", "", -5⟩ } (by decide)⟩

/-- C4: for every event and every evaluation instant `now` (any instant
not before the zero time — every wall-clock reading is), the open-CFP
condition shared by `search_events` with `hasOpenCFP=true`, by
`open_cfps` and by the `events://open-cfps` resource holds if and only
if `cfp.link` is non-empty, `cfpEndDate` is set, and `cfpEndDate` is
strictly after `now`; in particular an event whose open-CFP condition
fails (e.g. empty `cfp.link` with a far-future deadline) is excluded by
all three operations. -/
theorem C4_open_cfp_iff (now : GoTime) (e : Event)
    (hnow : GoTime.zero.ns ≤ now.ns) :
    (openCFP now e = true ↔
      (e.cfp.link ≠ "" ∧ e.cfpEndDate.isZero = false ∧ now.ns < e.cfpEndDate.ns))
    ∧ (∀ args fromD toD cfpFromD cfpToD, args.hasOpenCFP = true →
        openCFP now e = false →
        searchKeep args now fromD toD cfpFromD cfpToD e = false)
    ∧ (∀ limit events, e ∈ openCfpsFilter limit now events → openCFP now e = true)
    ∧ (∀ events, e ∈ openCfpsResource now events → openCFP now e = true) := by
  refine ⟨?_, ?_, ?_, ?_⟩
  · constructor
    · intro h
      simp only [openCFP, Bool.and_eq_true, GoTime.after, decide_eq_true_eq,
        bne_iff_ne, ne_eq] at h
      refine ⟨h.2, ?_, h.1⟩
      simp only [GoTime.isZero, beq_eq_false_iff_ne, ne_eq]
      intro hc
      rw [hc] at h
      omega
    · intro ⟨h1, _, h3⟩
      simp only [openCFP, Bool.and_eq_true, GoTime.after, decide_eq_true_eq,
        bne_iff_ne, ne_eq]
      exact ⟨h3, h1⟩
  · intro args fromD toD cfpFromD cfpToD hcfp hopen
    have h5 : (!(args.hasOpenCFP &&
        (!(e.cfpEndDate.after now) || e.cfp.link == ""))) = false := by
      rw [hcfp]
      simp only [openCFP, Bool.and_eq_false_iff] at hopen
      rcases hopen with h | h
      · simp [h]
      · simp only [bne_eq_false_iff_eq] at h
        simp [h]
    unfold searchKeep
    rw [h5]
    simp
  · intro limit events hmem
    exact mem_filterLimit hmem
  · intro events hmem
    exact (List.mem_filter.mp hmem).2

/-- C4, witness: at `now` = the Unix epoch, an event with CFP link
`"https"` and a set future deadline is kept. -/
theorem C4_witness :
    openCFP ⟨0⟩ { cfp := ⟨"https", "", 1⟩, cfpEndDate := ⟨1000000⟩ } = true :=
  (C4_open_cfp_iff ⟨0⟩ { cfp := ⟨"https", "", 1⟩, cfpEndDate := ⟨1000000⟩ }
    (by decide)).1.mpr ⟨by decide, by decide, by decide⟩

/-- C8: for every event list, day count and evaluation instant `now`
(not before the zero time), `cfp_deadlines_soon` keeps exactly the
events whose `cfpEndDate` is set, strictly after `now`, strictly before
`now + N` days (with `N` the given count, or 30 when the caller's count
is non-positive), and whose CFP link is non-empty. -/
theorem C8_deadlines_soon (days : Int) (now : GoTime) (events : List Event)
    (hnow : GoTime.zero.ns ≤ now.ns) :
    (∀ e, e ∈ cfpDeadlinesSoon days now events ↔
      (e ∈ events ∧ e.cfpEndDate.isZero = false ∧ now.ns < e.cfpEndDate.ns
        ∧ e.cfpEndDate.ns <
            now.ns + (if days ≤ 0 then 30 else days) * 86400 * 1000000000
        ∧ e.cfp.link ≠ ""))
    ∧ (days ≤ 0 → cfpDeadlinesSoon days now events = cfpDeadlinesSoon 30 now events) := by
  constructor
  · intro e
    unfold cfpDeadlinesSoon addDays
    rw [List.mem_filter]
    simp only [Bool.and_eq_true, GoTime.after, GoTime.before, decide_eq_true_eq,
      bne_iff_ne, ne_eq]
    constructor
    · intro ⟨hmem, ⟨hafter, hbefore⟩, hlink⟩
      refine ⟨hmem, ?_, hafter, by omega, hlink⟩
      simp only [GoTime.isZero, beq_eq_false_iff_ne, ne_eq]
      intro hc
      rw [hc] at hafter
      omega
    · intro ⟨hmem, _, hafter, hbefore, hlink⟩
      exact ⟨hmem, ⟨hafter, by omega⟩, hlink⟩
  · intro hdays
    unfold cfpDeadlinesSoon
    rw [if_pos hdays, if_neg (by norm_num)]

/-- C8, witness: with the defaulted day count (caller supplies 0), at
`now` = the Unix epoch, an event whose CFP deadline is one day later
and whose link is non-empty is kept. -/
theorem C8_witness :
    ({ cfp := ⟨"https", "", 1⟩, cfpEndDate := ⟨86400000000000⟩ } : Event)
      ∈ cfpDeadlinesSoon 0 ⟨0⟩
        [{ cfp := ⟨"https", "", 1⟩, cfpEndDate := ⟨86400000000000⟩ }] :=
  ((C8_deadlines_soon 0 ⟨0⟩
      [{ cfp := ⟨"https", "", 1⟩, cfpEndDate := ⟨86400000000000⟩ }]
      (by decide)).1 _).mpr
    ⟨List.mem_singleton.mpr rfl, by decide, by decide, by decide, by decide⟩

/-- Inversion of a successful `search_events` run: all four date
options parsed, and the result is the filter loop over the parsed
values. -/
theorem searchEvents_ok_inv {args : SearchEventsArgs} {now : GoTime}
    {events res : List Event}
    (h : searchEvents args now events = .ok res) :
    ∃ fromD toD cfpFromD cfpToD,
      parseDateField args.fromDate "fromDate" = .ok fromD ∧
      parseDateField args.toDate "toDate" = .ok toD ∧
      parseDateField args.cfpFromDate "cfpFromDate" = .ok cfpFromD ∧
      parseDateField args.cfpToDate "cfpToDate" = .ok cfpToD ∧
      res = filterLimit (searchKeep args now fromD toD cfpFromD cfpToD)
              args.limit events 0 := by
  unfold searchEvents at h
  cases h1 : parseDateField args.fromDate "fromDate" with
  | error er => rw [h1] at h; cases h
  | ok fromD =>
    rw [h1] at h
    cases h2 : parseDateField args.toDate "toDate" with
    | error er => rw [h2] at h; cases h
    | ok toD =>
      rw [h2] at h
      cases h3 : parseDateField args.cfpFromDate "cfpFromDate" with
      | error er => rw [h3] at h; cases h
      | ok cfpFromD =>
        rw [h3] at h
        cases h4 : parseDateField args.cfpToDate "cfpToDate" with
        | error er => rw [h4] at h; cases h
        | ok cfpToD =>
          rw [h4] at h
          injection h with h
          exact ⟨fromD, toD, cfpFromD, cfpToD, rfl, rfl, rfl, rfl, h.symm⟩

/-- C2, counterexample: with an active `toDate` filter
(`"2025-01-01"`) and an event whose `startDate` is unset (the zero
instant), `search_events` keeps the event, because the zero instant is
not after the parsed `toDate` — the claim says such an event must be
excluded. -/
theorem C2_counterexample :
    ({ toDate := "2025-01-01" } : SearchEventsArgs).toDate ≠ ""
    ∧ ({ name := "A" } : Event).startDate.isZero = true
    ∧ searchEvents { toDate := "2025-01-01" } ⟨1700000000000000000⟩
        [{ name := "A" }] = .ok [{ name := "A" }] :=
  ⟨by decide, by decide, rfl⟩

/-- C2, amended: when `toDate` (resp. `cfpToDate`) is supplied and
parses to a nonzero instant, every event `search_events` returns has
`startDate` (resp. `cfpEndDate`) not after it — but `startDate` need
not be set: an unset (zero-instant) `startDate` also passes, since the
zero instant is not after any such filter date. -/
theorem C2_amended_toDate_filter (args : SearchEventsArgs) (now : GoTime)
    (events res : List Event) (e : Event)
    (hres : searchEvents args now events = .ok res) (he : e ∈ res) :
    (∀ toD, parseDateField args.toDate "toDate" = .ok toD →
      toD.isZero = false → e.startDate.after toD = false)
    ∧ (∀ cfpToD, parseDateField args.cfpToDate "cfpToDate" = .ok cfpToD →
        cfpToD.isZero = false → e.cfpEndDate.after cfpToD = false) := by
  obtain ⟨fromD, toD, cfpFromD, cfpToD, h1, h2, h3, h4, hfilt⟩ :=
    searchEvents_ok_inv hres
  rw [hfilt] at he
  have hkeep := mem_filterLimit he
  unfold searchKeep at hkeep
  simp only [Bool.and_eq_true] at hkeep
  have hto : toD.isZero = true ∨ e.startDate.after toD = false := by
    simpa using hkeep.1.1.1.2
  have hcfpto : cfpToD.isZero = true ∨ e.cfpEndDate.after cfpToD = false := by
    simpa using hkeep.2
  constructor
  · intro toD' htoD' hnz
    rw [h2] at htoD'
    injection htoD' with htoD'
    subst htoD'
    rcases hto with h | h
    · rw [h] at hnz; cases hnz
    · exact h
  · intro cfpToD' hcfpToD' hnz
    rw [h4] at hcfpToD'
    injection hcfpToD' with hcfpToD'
    subst hcfpToD'
    rcases hcfpto with h | h
    · rw [h] at hnz; cases hnz
    · exact h

/-- C2, witness for the amended theorem: the kept zero-`startDate`
event of the counterexample input indeed has `startDate` not after the
parsed `toDate`. -/
theorem C2_witness :
    ({ name := "A" } : Event).startDate.after ⟨1735689600000000000⟩ = false :=
  (C2_amended_toDate_filter { toDate := "2025-01-01" } ⟨1700000000000000000⟩
      [{ name := "A" }] [{ name := "A" }] { name := "A" } rfl
      (List.mem_singleton.mpr rfl)).1
    ⟨1735689600000000000⟩ rfl rfl

/-- C5: a successful `search_events` run returns, when `limit > 0`,
exactly the first `limit` events (in input order) satisfying all active
predicates, and otherwise every satisfying event; the result is a
sub-sequence of the input, preserving original relative order. -/
theorem C5_search_limit (args : SearchEventsArgs) (now : GoTime)
    (events res : List Event) (fromD toD cfpFromD cfpToD : GoTime)
    (h1 : parseDateField args.fromDate "fromDate" = .ok fromD)
    (h2 : parseDateField args.toDate "toDate" = .ok toD)
    (h3 : parseDateField args.cfpFromDate "cfpFromDate" = .ok cfpFromD)
    (h4 : parseDateField args.cfpToDate "cfpToDate" = .ok cfpToD)
    (hres : searchEvents args now events = .ok res) :
    (res = if 0 < args.limit then
        (events.filter
          (searchKeep args now fromD toD cfpFromD cfpToD)).take args.limit.toNat
      else events.filter (searchKeep args now fromD toD cfpFromD cfpToD))
    ∧ List.Sublist res events := by
  obtain ⟨fromD', toD', cfpFromD', cfpToD', h1', h2', h3', h4', hfilt⟩ :=
    searchEvents_ok_inv hres
  rw [h1] at h1'; injection h1' with h1'
  rw [h2] at h2'; injection h2' with h2'
  rw [h3] at h3'; injection h3' with h3'
  rw [h4] at h4'; injection h4' with h4'
  subst h1'; subst h2'; subst h3'; subst h4'
  constructor
  · rw [hfilt]
    by_cases hlim : 0 < args.limit
    · rw [if_pos hlim,
        filterLimit_eq_take (searchKeep args now fromD toD cfpFromD cfpToD)
          args.limit hlim events 0 hlim]
      norm_num
    · rw [if_neg hlim,
        filterLimit_eq_filter (searchKeep args now fromD toD cfpFromD cfpToD)
          args.limit (by omega) events 0]
  · rw [hfilt]
    exact filterLimit_sublist _ _ events 0

/-- C5, witness: `limit = 2` over five all-matching events `A`..`E`
returns exactly `[A, B]`, a sub-sequence of the input. -/
theorem C5_witness :
    searchEvents { limit := 2 } ⟨0⟩
      [{ name := "A" }, { name := "B" }, { name := "C" }, { name := "D" },
        { name := "E" }]
      = .ok [{ name := "A" }, { name := "B" }]
    ∧ List.Sublist [({ name := "A" } : Event), { name := "B" }]
        [{ name := "A" }, { name := "B" }, { name := "C" }, { name := "D" },
          { name := "E" }] :=
  ⟨rfl,
    (C5_search_limit { limit := 2 } ⟨0⟩
      [{ name := "A" }, { name := "B" }, { name := "C" }, { name := "D" },
        { name := "E" }]
      [{ name := "A" }, { name := "B" }]
      GoTime.zero GoTime.zero GoTime.zero GoTime.zero
      rfl rfl rfl rfl rfl).2⟩

/-- The parse of a non-empty, malformed date option aborts with the
error naming that option. -/
theorem parseDateField_error (s field : String) (hne : s ≠ "")
    (hparse : parseDate s = none) :
    parseDateField s field = .error (.invalidDate field) := by
  unfold parseDateField
  rw [if_neg hne, hparse]

/-- C6: a non-empty date-valued option (`fromDate`, `toDate`,
`cfpFromDate`, `cfpToDate`) that is not a valid `YYYY-MM-DD` calendar
date makes `search_events` abort with `InvalidDateError` naming the
failing option (the first failing one, in source order) and return no
event list. -/
theorem C6_invalid_date (args : SearchEventsArgs) (now : GoTime)
    (events : List Event) :
    (args.fromDate ≠ "" → parseDate args.fromDate = none →
      searchEvents args now events = .error (.invalidDate "fromDate"))
    ∧ (∀ fromD, parseDateField args.fromDate "fromDate" = .ok fromD →
        args.toDate ≠ "" → parseDate args.toDate = none →
        searchEvents args now events = .error (.invalidDate "toDate"))
    ∧ (∀ fromD toD, parseDateField args.fromDate "fromDate" = .ok fromD →
        parseDateField args.toDate "toDate" = .ok toD →
        args.cfpFromDate ≠ "" → parseDate args.cfpFromDate = none →
        searchEvents args now events = .error (.invalidDate "cfpFromDate"))
    ∧ (∀ fromD toD cfpFromD,
        parseDateField args.fromDate "fromDate" = .ok fromD →
        parseDateField args.toDate "toDate" = .ok toD →
        parseDateField args.cfpFromDate "cfpFromDate" = .ok cfpFromD →
        args.cfpToDate ≠ "" → parseDate args.cfpToDate = none →
        searchEvents args now events = .error (.invalidDate "cfpToDate")) := by
  refine ⟨?_, ?_, ?_, ?_⟩
  · intro hne hparse
    unfold searchEvents
    rw [parseDateField_error _ _ hne hparse]
  · intro fromD h1 hne hparse
    unfold searchEvents
    rw [h1, parseDateField_error _ _ hne hparse]
  · intro fromD toD h1 h2 hne hparse
    unfold searchEvents
    rw [h1, h2, parseDateField_error _ _ hne hparse]
  · intro fromD toD cfpFromD h1 h2 h3 hne hparse
    unfold searchEvents
    rw [h1, h2, h3, parseDateField_error _ _ hne hparse]

/-- C6, witness: the malformed `fromDate` `"2025-13-40"` makes
`search_events` return the `fromDate` error and no events. -/
theorem C6_witness :
    searchEvents { fromDate := "2025-13-40" } ⟨0⟩ []
      = .error (.invalidDate "fromDate") :=
  (C6_invalid_date { fromDate := "2025-13-40" } ⟨0⟩ []).1 (by decide) (by decide)

/-- C7: a bare JSON array of event objects and the `{"events": [...]}`
wrapper holding the same array decode-and-normalize to identical event
sequences; the bare shape succeeds directly, and for the wrapper the
bare attempt fails structurally and the fallback yields the same
result. -/
theorem C7_wrapper_equiv (items : List Json) (evs : List Event)
    (h : decodeEvents (.arr items) = some evs) :
    parseEventsJson (.arr items) = .ok (processEvents evs)
    ∧ parseEventsJson (.obj [("events", .arr items)])
        = .ok (processEvents evs) := by
  constructor
  · unfold parseEventsJson
    rw [h]
  · unfold parseEventsJson
    have hbare : decodeEvents (.obj [("events", .arr items)]) = none := rfl
    have hwrap : decodeEventData (.obj [("events", .arr items)])
        = decodeEvents (.arr items) := rfl
    rw [hbare, hwrap, h]

/-- C7, witness at the one-element array `[{"name": "X"}]`. -/
theorem C7_witness :
    parseEventsJson (.arr [.obj [("name", .str "X")]])
      = .ok (processEvents [{ name := "X" }])
    ∧ parseEventsJson (.obj [("events", .arr [.obj [("name", .str "X")]])])
        = .ok (processEvents [{ name := "X" }]) :=
  C7_wrapper_equiv [.obj [("name", .str "X")]] [{ name := "X" }] rfl

end DevEvents
